import Mathlib

/-!
Verification of the OME-NGFF pyramidal-image utilities of tomojs-pytools
(`pytools/HedwigZarrImage.py`, `pytools/HedwigZarrImages.py`) against their
natural-language specification.

The Python classes are shallowly embedded: a zarr store is a finite
association list from array names to array records (shape, chunk layout,
flattened contents, compressor / filters / dimension-separator
configuration); the rechunk protocol, the shader classification, the
neuroglancer shader-parameter builder, the `dims` derivation and the series
catalog lookup are executable Lean functions translated line by line from
the source.  Fallible Python code (KeyError, IndexError, TypeError,
AssertionError, the zarr copy errors) is modelled with `Except`.
-/

namespace PyTools

/-- Python exceptions that the embedded code can raise. -/
inductive PyErr where
  | keyError
  | indexError
  | typeError
  | assertionError
  | runtimeError
  | containsArrayError
  | copyError
  deriving DecidableEq, Repr

/-- One zarr array: shape, chunk layout, flattened readable contents and the
compression configuration that `zarr.copy` is asked to preserve. -/
structure ZArray where
  shape : List Nat
  chunks : List Nat
  data : List Int
  compressor : String
  filters : List String
  dimension_separator : String
  deriving DecidableEq, Repr

/-- A zarr group's members: an association list from array name to array. -/
abbrev Store := List (String × ZArray)

/-- Lookup of `group[name]` (first binding wins). -/
def store_get (s : Store) (n : String) : Option ZArray :=
  match s with
  | [] => none
  | (k, a) :: rest => if k = n then some a else store_get rest n

/-- Model of `del group[name]`: removes the binding. -/
def store_del (s : Store) (n : String) : Store :=
  s.filter (fun p => !(p.1 == n))

/-- Model of `store.rename(old_name, new_name)`: rebinds in place. -/
def store_rename (s : Store) (old_name new_name : String) : Store :=
  s.map (fun p => if p.1 = old_name then (new_name, p.2) else p)

/-- One entry of the OME-NGFF `"axes"` attribute: `{name, type}`. -/
structure Axis where
  name : String
  type : String
  deriving DecidableEq, Repr

/-- One entry of the OME-NGFF `"datasets"` attribute: `{path}`. -/
structure Dataset where
  path : String
  deriving DecidableEq, Repr

/-- The parsed JSON dict `attrs["multiscales"][0]`: its `"axes"` and
`"datasets"` entries, plus the names of any further JSON keys the dict
carries (such as `"version"`). -/
structure MultiscaleEntry where
  axes : List Axis
  datasets : List Dataset
  extra_keys : List String := []
  deriving Repr

/-- The keys of the parsed `attrs["multiscales"][0]` dict, in insertion
order; this is what Python's `for image in self._ome_ngff_multiscales():`
iterates over, since iterating a dict yields its keys. -/
def MultiscaleEntry.dict_keys (m : MultiscaleEntry) : List String :=
  "axes" :: "datasets" :: m.extra_keys

/-- HedwigZarrImage._chunk_logic_dim: `if dshape > drequest > 0: return
drequest` (the request is an int, `-1` being the whole-axis sentinel),
`return dshape` otherwise. -/
def chunk_logic_dim (drequest : Int) (dshape : Nat) : Nat :=
  if (dshape : Int) > drequest ∧ drequest > 0 then drequest.toNat else dshape

/-- The chunk request of `_rechunk_group` line 184: `chunk_size` for every
axis of type `"space"`, the `-1` sentinel for every other axis. -/
def chunk_request (chunk_size : Int) (axes : List Axis) : List Int :=
  axes.map (fun a => if a.type = "space" then chunk_size else -1)

/-- The chunk tuple of `_rechunk_group` line 192: `_chunk_logic_dim` zipped
over the request and the array's shape (Python `zip` truncates to the
shorter argument, as `List.zipWith` does). -/
def computed_chunks (req : List Int) (shape : List Nat) : List Nat :=
  List.zipWith chunk_logic_dim req shape

/-- The body of `_rechunk_group` for a single dataset path (lines 187-212).
Looks the array up, computes the chunk tuple, skips when the layout already
matches, otherwise copies to `<name>.temp` with `overwrite=False` and the
same compressor / filters / dimension-separator, deletes the original and
renames the temporary back.  `copyOk` is an oracle for external failures of
the `zarr.copy` call (I/O and the like); an error carries the store as it
stands at the moment the exception propagates.  The returned flag records
whether a copy was performed. -/
def rechunk_array (copyOk : String → Bool) (s : Store) (path : String) (req : List Int) :
    Except (PyErr × Store) (Store × Bool) :=
  match store_get s path with
  | none => .error (.keyError, s)
  | some arr =>
    let chunks := computed_chunks req arr.shape
    if arr.chunks = chunks then .ok (s, false)
    else
      match store_get s (path ++ ".temp") with
      | some _ => .error (.containsArrayError, s)
      | none =>
        if copyOk path then
          let s1 := s ++ [(path ++ ".temp", { arr with chunks := chunks })]
          let s2 := store_del s1 path
          .ok (store_rename s2 (path ++ ".temp") path, true)
        else .error (.copyError, s)

/-- The inner loop of `_rechunk_group` (lines 186-212): the per-array body
folded over the dataset paths of one multiscale entry, counting copies. -/
def rechunk_datasets (copyOk : String → Bool) (s : Store) (paths : List String) (req : List Int) :
    Except (PyErr × Store) (Store × Nat) :=
  match paths with
  | [] => .ok (s, 0)
  | p :: rest =>
    match rechunk_array copyOk s p req with
    | .error e => .error e
    | .ok (s1, b) =>
      match rechunk_datasets copyOk s1 rest req with
      | .error e => .error e
      | .ok (s2, n) => .ok (s2, if b then n + 1 else n)

/-- Processing of one multiscale entry as the comment above line 183
intends it: compute the per-axis chunk request from the entry's axes and
run the per-array body over its dataset paths. -/
def rechunk_multiscale (copyOk : String → Bool) (chunk_size : Int) (m : MultiscaleEntry)
    (s : Store) : Except (PyErr × Store) (Store × Nat) :=
  rechunk_datasets copyOk s (m.datasets.map Dataset.path) (chunk_request chunk_size m.axes)

/-- Python semantics of subscripting a `str` with a `str` key: it always
raises `TypeError` (string indices must be integers). -/
def str_subscript_err (s key : String) : PyErr := .typeError

/-- HedwigZarrImage._rechunk_group as written.  Line 183 iterates
`self._ome_ngff_multiscales()`, which is `attrs["multiscales"][0]` — a
dict — so each loop variable `image` is one of the dict's string keys, and
the first statement of the body evaluates `image["axes"]`, subscripting a
string with a string: a `TypeError` before any array is touched.  Only an
empty dict (impossible for a well-formed multiscale entry, which carries at
least `"axes"` and `"datasets"`) would make the loop body unreachable. -/
def rechunk_group (chunk_size : Int) (m0 : MultiscaleEntry) (s : Store) :
    Except (PyErr × Store) (Store × Nat) :=
  match m0.dict_keys with
  | [] => .ok (s, 0)
  | image :: _ => .error (str_subscript_err image "axes", s)

/-- The robust-statistics record returned by `_visual_min_max` (its
histogram pipeline is an external collaborator; only the fields the shader
builder reads are modelled): the `"median"`, `"mad"`, `"min"` and `"max"`
entries, as rationals. -/
structure StatsRecord where
  median : ℚ
  mad : ℚ
  minv : ℚ
  maxv : ℚ
  deriving DecidableEq, Repr

/-- One HedwigZarrImage: the RGB answer of `ome_info.maybe_rgb`, the
declared axes of `multiscales[0]`, the level-0 array shape, the channel
names from the OME XML, and the statistics `_visual_min_max` yields for a
given channel selection (the collaborator's output, indexed by the
`channel` argument). -/
structure HZImage where
  maybe_rgb : Bool
  axes : List Axis
  shape : List Nat
  channel_names : List String
  visual_stats : Option Nat → StatsRecord

/-- Python's `str.upper()`, written as a character map so that it reduces
inside the kernel. -/
def py_upper (s : String) : String :=
  String.mk (s.data.map Char.toUpper)

/-- Python's `str.lower()`, written as a character map. -/
def py_lower (s : String) : String :=
  String.mk (s.data.map Char.toLower)

/-- HedwigZarrImage._ome_ngff_multiscale_dims: starts from the empty string
and appends `ax["name"].upper()` for each declared axis. -/
def multiscale_dims (img : HZImage) : String :=
  img.axes.foldl (fun dims a => dims ++ py_upper a.name) ""

/-- HedwigZarrImage.dims: `[d for s, d in zip(self.shape, self._ome_ngff_multiscale_dims()) if d in "XY" or s > 1]`
reversed and joined.  Python zips the shape with the characters of the
concatenated axis-label string and keeps a character when it is `X` or `Y`
or the paired extent exceeds 1. -/
def dims (img : HZImage) : String :=
  String.mk ((((img.shape.zip (multiscale_dims img).data).filter
    (fun p => p.2 == 'X' || p.2 == 'Y' || decide (1 < p.1))).map Prod.snd).reverse)

/-- The `dims` recipe as the specification words it: take the declared axis
labels in storage order, keep an axis exactly when its label is `"X"` or
`"Y"` or its full-resolution extent exceeds 1, reverse the kept sequence
and join. -/
def dims_fromSpec (img : HZImage) : String :=
  String.join (((((img.axes.map (fun a => py_upper a.name)).zip img.shape).filter
    (fun p => p.1 == "X" || p.1 == "Y" || decide (1 < p.2))).map Prod.fst).reverse)

/-- The single character of a one-character string (used to relate the
per-axis labels of the specification's `dims` recipe to the per-character
zip of the code). -/
def cOf (s : String) : Char := s.data.headD 'A'

/-- HedwigZarrImage.shader_type: `RGB` when the XML metadata marks the
image RGB; else `Grayscale` when `self._ome_ngff_multiscale_dims()[1] ==
"C" and self.shape[1] == 1`; else `MultiChannel`.  Python raises
`IndexError` when the indexed position does not exist, and the `and`
short-circuits, so `shape[1]` is only evaluated once `dims[1] == "C"`
holds. -/
def shader_type (img : HZImage) : Except PyErr String :=
  if img.maybe_rgb then .ok "RGB"
  else
    match (multiscale_dims img).data.get? 1 with
    | none => .error .indexError
    | some c =>
      if c = 'C' then
        match img.shape.get? 1 with
        | none => .error .indexError
        | some s1 => if s1 = 1 then .ok "Grayscale" else .ok "MultiChannel"
      else .ok "MultiChannel"

/-- The fixed palette of `neuroglancer_shader_parameters`. -/
def color_sequence : List String :=
  ["red", "green", "blue", "cyan", "yellow", "magenta"]

/-- Model of `re.sub(r"[^a-zA-Z0-9]+", "_", s)` on a character list: each
maximal run of non-alphanumeric characters collapses to one underscore; the
flag records whether a run is in progress. -/
def sanitize_go : Bool → List Char → List Char
  | _, [] => []
  | in_run, c :: rest =>
    if c.isAlphanum then c :: sanitize_go false rest
    else if in_run then sanitize_go true rest
    else '_' :: sanitize_go true rest

/-- The channel display name of line 137: lowercase, then collapse
non-alphanumeric runs to a single underscore. -/
def sanitize_name (s : String) : String :=
  String.mk (sanitize_go false (py_lower s).data)

/-- The window/range arithmetic shared by the Grayscale and MultiChannel
branches (lines 118-122 and 140-146): window is `median ± mad·mad_scale`
clamped to `[min, max]`, floored and ceiled; range is `[floor min, ceil
max]`. -/
def window_of (stats : StatsRecord) (mad_scale : ℚ) : List Int :=
  [⌊max (stats.median - stats.mad * mad_scale) stats.minv⌋,
   ⌈min (stats.median + stats.mad * mad_scale) stats.maxv⌉]

/-- The `"range"` list of lines 122 and 146. -/
def range_of (stats : StatsRecord) : List Int :=
  [⌊stats.minv⌋, ⌈stats.maxv⌉]

/-- One entry of the MultiChannel `"channelArray"`. -/
structure ChannelParams where
  window : List Int
  range : List Int
  name : String
  color : String
  channel : Nat
  clamp : Bool
  enabled : Bool
  deriving DecidableEq, Repr

/-- The JSON-serializable result of `neuroglancer_shader_parameters`. -/
inductive ShaderParams where
  | empty
  | grayscale (window : List Int) (range : List Int)
  | multiChannel (brightness : ℚ) (contrast : ℚ) (channelArray : List ChannelParams)
  deriving DecidableEq, Repr

/-- The channel loop of lines 133-153: for each `(c, c_name)` of
`enumerate(channel_names)`, the sanitized name, the per-channel statistics
and the window/range lists, the palette color `color_sequence[c]` (always
in range here, since the branch asserted `shape[1] <= len(color_sequence)`)
and the fixed `clamp=False, enabled=True`. -/
def build_channel_array (img : HZImage) (mad_scale : ℚ) : List ChannelParams :=
  img.channel_names.enum.map (fun p =>
    { window := window_of (img.visual_stats (some p.1)) mad_scale
      range := range_of (img.visual_stats (some p.1))
      name := sanitize_name p.2
      color := color_sequence.getD p.1 ""
      channel := p.1
      clamp := false
      enabled := true })

/-- HedwigZarrImage.neuroglancer_shader_parameters (lines 108-157).  The
`assert` statements of the MultiChannel branch become `AssertionError`
results (the specification's `ConsistencyError` taxonomy); indexing
`_ome_ngff_multiscale_dims()[1]` and `shape[1]` can raise `IndexError`; an
unknown shader type would raise `RuntimeError`. -/
def neuroglancer_shader_parameters (img : HZImage) (mad_scale : ℚ) :
    Except PyErr ShaderParams :=
  match shader_type img with
  | .error e => .error e
  | .ok t =>
    if t = "RGB" then .ok .empty
    else if t = "Grayscale" then
      let stats := img.visual_stats none
      .ok (.grayscale (window_of stats mad_scale) (range_of stats))
    else if t = "MultiChannel" then
      match (multiscale_dims img).data.get? 1 with
      | none => .error .indexError
      | some c =>
        if c = 'C' then
          match img.shape.get? 1 with
          | none => .error .indexError
          | some s1 =>
            if img.channel_names.length = s1 then
              if s1 ≤ color_sequence.length then
                .ok (.multiChannel 0 0 (build_channel_array img mad_scale))
              else .error .assertionError
            else .error .assertionError
        else .error .assertionError
    else .error .runtimeError

/-- The HedwigZarrImages catalog state: the OME XML image names when the
metadata file exists, the member names of the zarr root group, and the
`series` attribute of the root's `OME` group (`none` when the `OME` group
or the attribute is missing — either lookup raises `KeyError`). -/
structure Catalog where
  ome_info : Option (List String)
  root_groups : List String
  ome_series : Option (List String)
  deriving Repr

/-- HedwigZarrImages.get_series_keys: the OME XML image names when the
metadata is available, otherwise the root group names with `"OME"` filtered
out. -/
def get_series_keys (cat : Catalog) : List String :=
  match cat.ome_info with
  | some names => names
  | none => cat.root_groups.filter (fun x => !(x == "OME"))

/-- The image handle `HedwigZarrImage(zarr_grp, ome_info, ome_idx)` that a
successful catalog lookup returns: which root group backs it, the shared
OME info and the ordinal index. -/
structure ImageRef where
  group : String
  ome_info : Option (List String)
  ome_idx : Nat
  deriving DecidableEq, Repr

/-- HedwigZarrImages.__getitem__ (lines 227-234): enumerate the series
keys; on the first match, read `zarr_root["OME"].attrs["series"]`, index it
with the ordinal, look that group up and build the image.  When no key
matches, the code falls through to `HedwigZarrImage(self.zarr_root[item])`:
the subscript raises `KeyError` for a missing member, and otherwise the
constructor call itself raises `TypeError`, because `HedwigZarrImage.__init__`
has two further required positional parameters. -/
def getitem (cat : Catalog) (item : String) : Except PyErr ImageRef :=
  match (get_series_keys cat).findIdx? (fun k => k == item) with
  | some k_idx =>
    match cat.ome_series with
    | none => .error .keyError
    | some series =>
      match series.get? k_idx with
      | none => .error .indexError
      | some zarr_idx =>
        if zarr_idx ∈ cat.root_groups then .ok ⟨zarr_idx, cat.ome_info, k_idx⟩
        else .error .keyError
  | none =>
    if item ∈ cat.root_groups then .error .typeError else .error .keyError

/-- Decidable equality for `Except`, so that concrete runs of the embedded
code can be checked by `decide`. -/
instance exceptDecEq {ε α : Type} [DecidableEq ε] [DecidableEq α] :
    DecidableEq (Except ε α) :=
  fun a b =>
    match a, b with
    | .ok x, .ok y =>
      if h : x = y then .isTrue (by rw [h]) else .isFalse (by simp [h])
    | .error x, .error y =>
      if h : x = y then .isTrue (by rw [h]) else .isFalse (by simp [h])
    | .ok _, .error _ => .isFalse (by simp)
    | .error _, .ok _ => .isFalse (by simp)

/-- The level-0 array of the rechunk scenario: shape `(1,3,1,2048,2048)`,
initially chunked as whole planes. -/
def arr0 : ZArray :=
  { shape := [1, 3, 1, 2048, 2048], chunks := [1, 3, 1, 2048, 2048], data := [7, 8, 9],
    compressor := "blosc", filters := ["f0"], dimension_separator := "/" }

/-- Axes `[T, C, Z, Y, X]` with OME-NGFF types time / channel / space /
space / space. -/
def axes_tczyx : List Axis :=
  [⟨"t", "time"⟩, ⟨"c", "channel"⟩, ⟨"z", "space"⟩, ⟨"y", "space"⟩, ⟨"x", "space"⟩]

/-- The multiscale entry of the rechunk scenario: one dataset at path
`"0"`. -/
def ms0 : MultiscaleEntry := { axes := axes_tczyx, datasets := [⟨"0"⟩] }

/-- A store holding the scenario's single level-0 array. -/
def store0 : Store := [("0", arr0)]

/-- The scenario array after rechunking with request 64. -/
def arr0_rechunked : ZArray := { arr0 with chunks := [1, 3, 1, 64, 64] }

/-- The scenario store after a successful rechunk pass. -/
def store0_after : Store := [("0", arr0_rechunked)]

/-- A store in which an orphan temporary sibling `"0.temp"` already
exists next to `"0"`. -/
def store_with_temp : Store := [("0", arr0), ("0.temp", arr0)]

/-- A 2-axis image `[{name:"y",type:"space"}, {name:"x",type:"space"}]` of
shape `(512, 512)`, not RGB, with no channel axis. -/
def img_yx : HZImage :=
  { maybe_rgb := false, axes := [⟨"y", "space"⟩, ⟨"x", "space"⟩], shape := [512, 512],
    channel_names := [], visual_stats := fun _ => ⟨0, 0, 0, 0⟩ }

/-- A grayscale image: channel axis at storage position 1 with extent 1,
and statistics median 10, MAD 2, min 0, max 100. -/
def img_gray : HZImage :=
  { maybe_rgb := false,
    axes := [⟨"t", "time"⟩, ⟨"c", "channel"⟩, ⟨"y", "space"⟩, ⟨"x", "space"⟩],
    shape := [1, 1, 4, 4], channel_names := ["ch0"],
    visual_stats := fun _ => ⟨10, 2, 0, 100⟩ }

/-- A multichannel image with 3 declared channel names but channel axis
extent 4. -/
def img_mc_mismatch : HZImage :=
  { maybe_rgb := false,
    axes := [⟨"t", "time"⟩, ⟨"c", "channel"⟩, ⟨"y", "space"⟩, ⟨"x", "space"⟩],
    shape := [1, 4, 8, 8], channel_names := ["a", "b", "c"],
    visual_stats := fun _ => ⟨10, 2, 0, 100⟩ }

/-- A well-formed multichannel image: 2 channel names, extent 2. -/
def img_mc_ok : HZImage :=
  { maybe_rgb := false,
    axes := [⟨"t", "time"⟩, ⟨"c", "channel"⟩, ⟨"y", "space"⟩, ⟨"x", "space"⟩],
    shape := [1, 2, 8, 8], channel_names := ["DAPI", "GFP a"],
    visual_stats := fun _ => ⟨10, 2, 0, 100⟩ }

/-- A catalog whose OME XML declares one series `"imgA"` backed by root
group `"0"`; the root also holds the reserved `"OME"` group. -/
def cat0 : Catalog :=
  { ome_info := some ["imgA"], root_groups := ["OME", "0"], ome_series := some ["0"] }

/-- Agreement of two arrays on everything except the chunk layout: shape,
readable contents, compressor, filters and dimension separator. -/
def same_but_chunks (a' a : ZArray) : Prop :=
  a'.shape = a.shape ∧ a'.data = a.data ∧ a'.compressor = a.compressor ∧
    a'.filters = a.filters ∧ a'.dimension_separator = a.dimension_separator

lemma same_but_chunks_refl (a : ZArray) : same_but_chunks a a :=
  ⟨rfl, rfl, rfl, rfl, rfl⟩

lemma same_but_chunks_trans {a b c : ZArray}
    (h1 : same_but_chunks b a) (h2 : same_but_chunks c b) : same_but_chunks c a :=
  ⟨h2.1.trans h1.1, h2.2.1.trans h1.2.1, h2.2.2.1.trans h1.2.2.1,
   h2.2.2.2.1.trans h1.2.2.2.1, h2.2.2.2.2.trans h1.2.2.2.2⟩

lemma temp_name_ne (p : String) : p ++ ".temp" ≠ p := by
  intro h
  have hl := congrArg String.length h
  rw [String.length_append] at hl
  have h5 : (".temp" : String).length = 5 := rfl
  omega

lemma store_get_del_ne (s : Store) (n m : String) (h : m ≠ n) :
    store_get (store_del s n) m = store_get s m := by
  induction s with
  | nil => rfl
  | cons p rest ih =>
    by_cases hp : p.1 = n
    · have hm : ¬p.1 = m := fun hh => h (hh ▸ hp ▸ rfl)
      simp only [store_del, List.filter_cons] at ih ⊢
      simp [store_get, hp, hm, ih, Ne.symm h]
    · simp only [store_del, List.filter_cons] at ih ⊢
      by_cases hm : p.1 = m
      · simp [store_get, hp, hm, h]
      · simp [store_get, hp, hm, ih, h]

lemma store_get_append_left (s t : Store) (n : String) (a : ZArray)
    (h : store_get s n = some a) : store_get (s ++ t) n = some a := by
  induction s with
  | nil => simp [store_get] at h
  | cons p rest ih =>
    simp only [store_get, List.cons_append] at *
    by_cases hp : p.1 = n
    · simpa [hp] using h
    · simp only [hp, if_false] at h ⊢
      exact ih h

lemma store_get_append_right (s t : Store) (n : String)
    (h : store_get s n = none) : store_get (s ++ t) n = store_get t n := by
  induction s with
  | nil => rfl
  | cons p rest ih =>
    simp only [store_get, List.cons_append] at *
    by_cases hp : p.1 = n
    · simp [hp] at h
    · simp only [hp, if_false] at h ⊢
      exact ih h

lemma store_rename_absent (s : Store) (o nw : String)
    (h : store_get s o = none) : store_rename s o nw = s := by
  induction s with
  | nil => rfl
  | cons p rest ih =>
    simp only [store_get] at h
    by_cases hp : p.1 = o
    · simp [hp] at h
    · simp only [hp, if_false] at h
      simp [store_rename, hp, ih h]
      exact ih h

lemma store_get_del_self (s : Store) (n : String) :
    store_get (store_del s n) n = none := by
  induction s with
  | nil => rfl
  | cons p rest ih =>
    simp only [store_del, List.filter_cons] at ih ⊢
    by_cases hp : p.1 = n
    · simp [hp, ih]
    · simp [store_get, hp, ih]

lemma store_rename_append (s t : Store) (o nw : String) :
    store_rename (s ++ t) o nw = store_rename s o nw ++ store_rename t o nw := by
  simp [store_rename]

/-- The store after the copy / delete / rename sequence of lines 198-212 is
the original store with the binding at `path` replaced by the fresh copy
(positionally, the old binding is removed and the copy sits at the end). -/
lemma copy_del_rename_eq (s : Store) (path : String) (a' : ZArray)
    (ht : store_get s (path ++ ".temp") = none) :
    store_rename (store_del (s ++ [(path ++ ".temp", a')]) path) (path ++ ".temp") path
      = store_del s path ++ [(path, a')] := by
  have htp := temp_name_ne path
  have h1 : store_del (s ++ [(path ++ ".temp", a')]) path
      = store_del s path ++ [(path ++ ".temp", a')] := by
    simp [store_del, List.filter_append, htp]
  rw [h1, store_rename_append]
  have h2 : store_get (store_del s path) (path ++ ".temp") = none := by
    rw [store_get_del_ne _ _ _ htp]; exact ht
  rw [store_rename_absent _ _ _ h2]
  simp [store_rename]

/-- Case analysis on a successful per-array step: either the chunk layout
already matched and nothing happened, or a copy with the computed chunk
tuple replaced the array. -/
lemma rechunk_array_ok_cases (copyOk : String → Bool) (s : Store) (path : String)
    (req : List Int) (s' : Store) (b : Bool)
    (h : rechunk_array copyOk s path req = .ok (s', b)) :
    ∃ arr, store_get s path = some arr ∧
      ((b = false ∧ s' = s ∧ arr.chunks = computed_chunks req arr.shape) ∨
       (b = true ∧ arr.chunks ≠ computed_chunks req arr.shape ∧
        store_get s (path ++ ".temp") = none ∧ copyOk path = true ∧
        s' = store_del s path ++ [(path, { arr with chunks := computed_chunks req arr.shape })])) := by
  unfold rechunk_array at h
  cases hg : store_get s path with
  | none => rw [hg] at h; simp at h
  | some arr =>
    rw [hg] at h
    simp only at h
    by_cases hc : arr.chunks = computed_chunks req arr.shape
    · rw [if_pos hc] at h
      obtain ⟨hs, hb⟩ : s = s' ∧ false = b := by
        simpa using h
      exact ⟨arr, rfl, .inl ⟨hb.symm, hs.symm, hc⟩⟩
    · rw [if_neg hc] at h
      cases htmp : store_get s (path ++ ".temp") with
      | some t => rw [htmp] at h; simp at h
      | none =>
        rw [htmp] at h
        cases hok : copyOk path with
        | false => rw [hok] at h; simp at h
        | true =>
          rw [hok] at h
          simp only [if_true] at h
          obtain ⟨hs, hb⟩ : _ ∧ true = b := by simpa using h
          refine ⟨arr, rfl, .inr ⟨hb.symm, hc, rfl, rfl, ?_⟩⟩
          rw [← hs, copy_del_rename_eq s path _ htmp]

/-- A successful per-array step changes no binding other than `path`, and
rebinds `path` to an array identical except possibly in chunk layout, with
the computed chunk tuple. -/
lemma rechunk_array_ok_props (copyOk : String → Bool) (s : Store) (path : String)
    (req : List Int) (s' : Store) (b : Bool)
    (h : rechunk_array copyOk s path req = .ok (s', b)) :
    (∀ r, r ≠ path → store_get s' r = store_get s r) ∧
    (∃ a a', store_get s path = some a ∧ store_get s' path = some a' ∧
      same_but_chunks a' a ∧ a'.chunks = computed_chunks req a.shape) := by
  obtain ⟨arr, hg, hcase⟩ := rechunk_array_ok_cases copyOk s path req s' b h
  rcases hcase with ⟨_, hs, hc⟩ | ⟨_, _, htmp, _, hs⟩
  · subst hs
    exact ⟨fun r _ => rfl, arr, arr, hg, hg, same_but_chunks_refl arr, hc⟩
  · subst hs
    constructor
    · intro r hr
      cases hgr : store_get s r with
      | some x =>
        have hd : store_get (store_del s path) r = some x := by
          rw [store_get_del_ne _ _ _ hr]; exact hgr
        exact store_get_append_left _ _ _ _ hd
      | none =>
        have hd : store_get (store_del s path) r = none := by
          rw [store_get_del_ne _ _ _ hr]; exact hgr
        rw [store_get_append_right _ _ _ hd]
        simp only [store_get]
        rw [if_neg (fun hpr => hr hpr.symm)]
    · refine ⟨arr, { arr with chunks := computed_chunks req arr.shape },
        hg, ?_, ⟨rfl, rfl, rfl, rfl, rfl⟩, rfl⟩
      rw [store_get_append_right _ _ _ (store_get_del_self s path)]
      simp [store_get]

/-- A successful run over a list of dataset paths maps every array present
in the store to an array that agrees with it on everything but the chunk
layout, and whose chunk layout is either untouched or the computed one. -/
lemma rechunk_datasets_ok_get (copyOk : String → Bool) (req : List Int) :
    ∀ (paths : List String) (s s' : Store) (n : Nat),
      rechunk_datasets copyOk s paths req = .ok (s', n) →
      ∀ p a, store_get s p = some a →
        ∃ a', store_get s' p = some a' ∧ same_but_chunks a' a ∧
          (a'.chunks = a.chunks ∨ a'.chunks = computed_chunks req a.shape) := by
  intro paths
  induction paths with
  | nil =>
    intro s s' n h p a hp
    obtain ⟨hs, -⟩ : s = s' ∧ 0 = n := by
      simpa [rechunk_datasets] using h
    exact ⟨a, hs ▸ hp, same_but_chunks_refl a, .inl rfl⟩
  | cons q rest ih =>
    intro s s' n h p a hp
    unfold rechunk_datasets at h
    cases hstep : rechunk_array copyOk s q req with
    | error e => rw [hstep] at h; simp at h
    | ok pair =>
      obtain ⟨s1, b⟩ := pair
      rw [hstep] at h
      simp only at h
      cases hrest : rechunk_datasets copyOk s1 rest req with
      | error e => rw [hrest] at h; simp at h
      | ok pair2 =>
        obtain ⟨s2, m⟩ := pair2
        rw [hrest] at h
        obtain ⟨hs2, -⟩ : s2 = s' ∧ _ := by simpa using h
        obtain ⟨hframe, a0, a1, hq0, hq1, hsame01, hchunks1⟩ :=
          rechunk_array_ok_props copyOk s q req s1 b hstep
        by_cases hpq : p = q
        · subst hpq
          rw [hp] at hq0
          obtain rfl : a0 = a := by injection hq0.symm
          obtain ⟨a', ha', hsame', hch'⟩ := ih s1 s2 m hrest p a1 hq1
          refine ⟨a', hs2 ▸ ha', same_but_chunks_trans hsame01 hsame', .inr ?_⟩
          rcases hch' with h1 | h1
          · rw [h1, hchunks1]
          · rw [h1, hsame01.1]
        · have hp1 : store_get s1 p = some a := by rw [hframe p hpq]; exact hp
          obtain ⟨a', ha', hsame', hch'⟩ := ih s1 s2 m hrest p a hp1
          exact ⟨a', hs2 ▸ ha', hsame', hch'⟩

/-- After a successful run, every dataset path is bound to an array whose
chunk layout equals the chunk tuple computed from its own shape. -/
lemma rechunk_datasets_ok_processed (copyOk : String → Bool) (req : List Int) :
    ∀ (paths : List String) (s s' : Store) (n : Nat),
      rechunk_datasets copyOk s paths req = .ok (s', n) →
      ∀ p, p ∈ paths →
        ∃ a', store_get s' p = some a' ∧ a'.chunks = computed_chunks req a'.shape := by
  intro paths
  induction paths with
  | nil => intro s s' n _ p hp; exact absurd hp (List.not_mem_nil p)
  | cons q rest ih =>
    intro s s' n h p hp
    unfold rechunk_datasets at h
    cases hstep : rechunk_array copyOk s q req with
    | error e => rw [hstep] at h; simp at h
    | ok pair =>
      obtain ⟨s1, b⟩ := pair
      rw [hstep] at h
      simp only at h
      cases hrest : rechunk_datasets copyOk s1 rest req with
      | error e => rw [hrest] at h; simp at h
      | ok pair2 =>
        obtain ⟨s2, m⟩ := pair2
        rw [hrest] at h
        obtain ⟨hs2, -⟩ : s2 = s' ∧ _ := by simpa using h
        rcases List.mem_cons.mp hp with rfl | hmem
        · obtain ⟨-, a0, a1, -, hq1, hsame01, hchunks1⟩ :=
            rechunk_array_ok_props copyOk s p req s1 b hstep
          obtain ⟨a', ha', hsame', hch'⟩ :=
            rechunk_datasets_ok_get copyOk req rest s1 s2 m hrest p a1 hq1
          refine ⟨a', hs2 ▸ ha', ?_⟩
          have hshape : a'.shape = a0.shape := hsame'.1.trans hsame01.1
          rcases hch' with h1 | h1
          · rw [h1, hchunks1, hshape]
          · rw [h1, hsame01.1, hshape]
        · exact hs2 ▸ ih s1 s2 m hrest p hmem

/-- When every listed array already carries the computed chunk tuple, the
run takes the skip branch everywhere: the store is returned unchanged and
no copy is performed. -/
lemma rechunk_datasets_all_skip (copyOk : String → Bool) (req : List Int) :
    ∀ (paths : List String) (s : Store),
      (∀ p, p ∈ paths → ∃ a, store_get s p = some a ∧ a.chunks = computed_chunks req a.shape) →
      rechunk_datasets copyOk s paths req = .ok (s, 0) := by
  intro paths
  induction paths with
  | nil => intro s _; rfl
  | cons q rest ih =>
    intro s hall
    obtain ⟨a, hq, hch⟩ := hall q (List.mem_cons_self q rest)
    have hstep : rechunk_array copyOk s q req = .ok (s, false) := by
      unfold rechunk_array
      rw [hq]
      simp only
      rw [if_pos hch]
    unfold rechunk_datasets
    rw [hstep]
    simp only
    rw [ih s (fun p hp => hall p (List.mem_cons_of_mem q hp))]
    simp

/-- C1.  A successful rechunk pass over the dataset paths of a multiscale
entry preserves, for every array in the store, its readable contents and
its compressor, filters and dimension-separator configuration (and its
shape): only the chunk layout can change, for any requested chunk tuple. -/
theorem rechunk_preserves_contents (copyOk : String → Bool) (s : Store)
    (paths : List String) (req : List Int) (s' : Store) (n : Nat)
    (h : rechunk_datasets copyOk s paths req = .ok (s', n)) :
    ∀ p a, store_get s p = some a →
      ∃ a', store_get s' p = some a' ∧ a'.data = a.data ∧
        a'.compressor = a.compressor ∧ a'.filters = a.filters ∧
        a'.dimension_separator = a.dimension_separator ∧ a'.shape = a.shape := by
  intro p a hp
  obtain ⟨a', h1, hsame, -⟩ := rechunk_datasets_ok_get copyOk req paths s s' n h p a hp
  exact ⟨a', h1, hsame.2.1, hsame.2.2.1, hsame.2.2.2.1, hsame.2.2.2.2, hsame.1⟩

theorem rechunk_preserves_contents_witness :
    rechunk_datasets (fun _ => true) store0 ["0"] [-1, -1, 64, 64, 64] =
      .ok (store0_after, 1) ∧
    (∃ a', store_get store0_after "0" = some a' ∧ a'.data = arr0.data ∧
      a'.compressor = arr0.compressor ∧ a'.filters = arr0.filters ∧
      a'.dimension_separator = arr0.dimension_separator ∧ a'.shape = arr0.shape) :=
  ⟨by decide,
   rechunk_preserves_contents (fun _ => true) store0 ["0"] [-1, -1, 64, 64, 64]
     store0_after 1 (by decide) "0" arr0 (by decide)⟩

/-- C2.  On the scenario pyramid (axes `[T,C,Z,Y,X]`, level-0 shape
`(1,3,1,2048,2048)`), `_rechunk_group` as written raises `TypeError`
before touching any array, because line 183 iterates the keys of the
`multiscales[0]` dict and the body subscripts that string key with
`"axes"`.  The chunk arithmetic of the loop body itself is as the claim
states: the request is `(-1,-1,64,64,64)`, the computed tuple is
`(1,3,1,64,64)`, and running the body over the entry would rechunk the
array to exactly that tuple. -/
theorem rechunk_group_scenario :
    rechunk_group 64 ms0 store0 = .error (.typeError, store0) ∧
    chunk_request 64 axes_tczyx = [-1, -1, 64, 64, 64] ∧
    computed_chunks [-1, -1, 64, 64, 64] arr0.shape = [1, 3, 1, 64, 64] ∧
    rechunk_multiscale (fun _ => true) 64 ms0 store0 = .ok (store0_after, 1) :=
  ⟨by decide, by decide, by decide, by decide⟩

/-- C6.  Rechunking is idempotent: a second run with the same request
returns the store of the first run unchanged and performs no copy; and any
array whose current chunk tuple already equals the computed tuple is
skipped outright, the step returning the store untouched with no temporary
created, no delete and no rename. -/
theorem rechunk_idempotent :
    (∀ (copyOk : String → Bool) (s : Store) (paths : List String) (req : List Int)
       (s1 : Store) (n : Nat),
       rechunk_datasets copyOk s paths req = .ok (s1, n) →
       rechunk_datasets copyOk s1 paths req = .ok (s1, 0)) ∧
    (∀ (copyOk : String → Bool) (s : Store) (path : String) (req : List Int) (a : ZArray),
       store_get s path = some a → a.chunks = computed_chunks req a.shape →
       rechunk_array copyOk s path req = .ok (s, false)) := by
  constructor
  · intro ck s paths req s1 n h
    apply rechunk_datasets_all_skip
    intro p hp
    exact rechunk_datasets_ok_processed ck req paths s s1 n h p hp
  · intro ck s path req a hp hch
    unfold rechunk_array
    rw [hp]
    simp only
    rw [if_pos hch]

theorem rechunk_idempotent_witness :
    rechunk_datasets (fun _ => true) store0 ["0"] [-1, -1, 64, 64, 64] =
      .ok (store0_after, 1) ∧
    rechunk_datasets (fun _ => true) store0_after ["0"] [-1, -1, 64, 64, 64] =
      .ok (store0_after, 0) :=
  ⟨by decide,
   rechunk_idempotent.1 (fun _ => true) store0 ["0"] [-1, -1, 64, 64, 64]
     store0_after 1 (by decide)⟩

/-- C7.  Whenever the per-array step fails — the array lookup, or the copy
to the temporary name, for any reason the oracle models — the store at the
moment the exception propagates is exactly the store before the step: the
original array keeps its contents, chunk layout and name and is not
deleted, because the delete and the rename only run after the copy has
completed. -/
theorem rechunk_copy_failure_preserves_original (copyOk : String → Bool) (s : Store)
    (path : String) (req : List Int) (e : PyErr) (s_err : Store)
    (h : rechunk_array copyOk s path req = .error (e, s_err)) :
    s_err = s ∧ store_get s_err path = store_get s path := by
  have hs : s_err = s := by
    unfold rechunk_array at h
    cases hg : store_get s path with
    | none =>
      rw [hg] at h
      obtain ⟨-, hs⟩ : _ ∧ s = s_err := by simpa using h
      exact hs.symm
    | some arr =>
      rw [hg] at h
      simp only at h
      by_cases hc : arr.chunks = computed_chunks req arr.shape
      · rw [if_pos hc] at h; simp at h
      · rw [if_neg hc] at h
        cases htmp : store_get s (path ++ ".temp") with
        | some t =>
          rw [htmp] at h
          obtain ⟨-, hs⟩ : _ ∧ s = s_err := by simpa using h
          exact hs.symm
        | none =>
          rw [htmp] at h
          cases hok : copyOk path with
          | true => rw [hok] at h; simp at h
          | false =>
            rw [hok] at h
            obtain ⟨-, hs⟩ : _ ∧ s = s_err := by simpa using h
            exact hs.symm
  exact ⟨hs, by rw [hs]⟩

theorem rechunk_copy_failure_preserves_original_witness :
    rechunk_array (fun _ => true) store_with_temp "0" [-1, -1, 64, 64, 64] =
      .error (.containsArrayError, store_with_temp) ∧
    (store_with_temp = store_with_temp ∧
      store_get store_with_temp "0" = store_get store_with_temp "0") :=
  ⟨by decide,
   rechunk_copy_failure_preserves_original (fun _ => true) store_with_temp "0"
     [-1, -1, 64, 64, 64] .containsArrayError store_with_temp (by decide)⟩

/-- C10.  When a sibling `<array>.temp` already exists, the step never
overwrites it: either the array is skipped (chunk layout already as
requested), or the copy — run with `overwrite=False` — fails with the
contains-array error; in both cases the store, and in particular the
original array, is returned exactly as it was, before any delete or
rename. -/
theorem rechunk_no_temp_overwrite (copyOk : String → Bool) (s : Store) (path : String)
    (req : List Int) (a t : ZArray)
    (ha : store_get s path = some a)
    (ht : store_get s (path ++ ".temp") = some t) :
    rechunk_array copyOk s path req = .ok (s, false) ∨
      rechunk_array copyOk s path req = .error (.containsArrayError, s) := by
  unfold rechunk_array
  rw [ha]
  simp only
  by_cases hc : a.chunks = computed_chunks req a.shape
  · rw [if_pos hc]; exact .inl rfl
  · rw [if_neg hc, ht]; exact .inr rfl

theorem rechunk_no_temp_overwrite_witness :
    rechunk_array (fun _ => true) store_with_temp "0" [-1, -1, 64, 64, 64] =
        .ok (store_with_temp, false) ∨
      rechunk_array (fun _ => true) store_with_temp "0" [-1, -1, 64, 64, 64] =
        .error (.containsArrayError, store_with_temp) :=
  rechunk_no_temp_overwrite (fun _ => true) store_with_temp "0" [-1, -1, 64, 64, 64]
    arr0 arr0 (by decide) (by decide)

/-- C3 counterexample.  The non-RGB 2-axis image with axes
`[{name:"y",type:"space"}, {name:"x",type:"space"}]` and shape `(512,512)`
— no channel axis at all — is classified `MultiChannel`, not `Grayscale`:
the code only returns `Grayscale` when the axis at storage position 1 is
literally `C` with extent 1, and never when the channel axis is absent. -/
theorem shader_type_yx_not_grayscale :
    shader_type img_yx ≠ .ok "Grayscale" ∧ shader_type img_yx = .ok "MultiChannel" :=
  ⟨by decide, by decide⟩

/-- C3 amended.  For every image with at least two axes (position 1 of the
concatenated upper-cased axis labels and of the shape both exist),
`shader_type` returns exactly one of RGB, Grayscale, MultiChannel, in this
order: RGB iff the XML metadata marks the image RGB; Grayscale iff not RGB
and the storage axis at position 1 is the channel axis `C` with extent 1;
MultiChannel otherwise — in particular an image without a channel axis at
position 1 (such as a plain `[y, x]` image) is MultiChannel, not
Grayscale. -/
theorem shader_type_classification (img : HZImage) (c : Char) (s1 : Nat)
    (hc : (multiscale_dims img).data.get? 1 = some c)
    (hs : img.shape.get? 1 = some s1) :
    (shader_type img = .ok "RGB" ↔ img.maybe_rgb = true) ∧
    (shader_type img = .ok "Grayscale" ↔
      img.maybe_rgb = false ∧ c = 'C' ∧ s1 = 1) ∧
    (shader_type img = .ok "MultiChannel" ↔
      img.maybe_rgb = false ∧ ¬(c = 'C' ∧ s1 = 1)) ∧
    (shader_type img = .ok "RGB" ∨ shader_type img = .ok "Grayscale" ∨
      shader_type img = .ok "MultiChannel") := by
  have hval : shader_type img =
      if img.maybe_rgb then .ok "RGB"
      else if c = 'C' then (if s1 = 1 then .ok "Grayscale" else .ok "MultiChannel")
      else .ok "MultiChannel" := by
    unfold shader_type
    rw [hc, hs]
  rw [hval]
  cases hrgb : img.maybe_rgb with
  | true =>
    refine ⟨by simp, by simp, by simp, .inl (by simp)⟩
  | false =>
    by_cases hcC : c = 'C'
    · subst hcC
      by_cases hs1 : s1 = 1
      · subst hs1
        refine ⟨by simp, by simp, by simp, .inr (.inl (by simp))⟩
      · refine ⟨by simp [hs1], by simp [hs1], by simp [hs1], .inr (.inr (by simp [hs1]))⟩
    · refine ⟨by simp [hcC], by simp [hcC], by simp [hcC], .inr (.inr (by simp [hcC]))⟩

theorem shader_type_classification_witness :
    (multiscale_dims img_yx).data.get? 1 = some 'X' ∧
    img_yx.shape.get? 1 = some 512 ∧
    (shader_type img_yx = .ok "MultiChannel" ↔
      img_yx.maybe_rgb = false ∧ ¬('X' = 'C' ∧ 512 = 1)) :=
  ⟨by decide, by decide,
   (shader_type_classification img_yx 'X' 512 (by decide) (by decide)).2.2.1⟩

/-- C5.  For a Grayscale image (with well-formed statistics `min ≤ median ≤
max`, `0 ≤ mad`, and a non-negative scale), the shader parameters carry
window `[⌊max(median − mad·scale, min)⌋, ⌈min(median + mad·scale, max)⌉]`
and range `[⌊min⌋, ⌈max⌉]`; the floored clamped lower bound never exceeds
the median, and the window lies within the range. -/
theorem grayscale_shader_parameters (img : HZImage) (ms : ℚ)
    (h : shader_type img = .ok "Grayscale")
    (hms : 0 ≤ ms)
    (h1 : (img.visual_stats none).minv ≤ (img.visual_stats none).median)
    (h2 : (img.visual_stats none).median ≤ (img.visual_stats none).maxv)
    (h3 : 0 ≤ (img.visual_stats none).mad) :
    neuroglancer_shader_parameters img ms =
      .ok (.grayscale
        [⌊max ((img.visual_stats none).median - (img.visual_stats none).mad * ms)
            (img.visual_stats none).minv⌋,
         ⌈min ((img.visual_stats none).median + (img.visual_stats none).mad * ms)
            (img.visual_stats none).maxv⌉]
        [⌊(img.visual_stats none).minv⌋, ⌈(img.visual_stats none).maxv⌉]) ∧
    ((⌊max ((img.visual_stats none).median - (img.visual_stats none).mad * ms)
        (img.visual_stats none).minv⌋ : ℚ) ≤ (img.visual_stats none).median) ∧
    ⌊(img.visual_stats none).minv⌋ ≤
      ⌊max ((img.visual_stats none).median - (img.visual_stats none).mad * ms)
        (img.visual_stats none).minv⌋ ∧
    ⌈min ((img.visual_stats none).median + (img.visual_stats none).mad * ms)
        (img.visual_stats none).maxv⌉ ≤ ⌈(img.visual_stats none).maxv⌉ := by
  refine ⟨?_, ?_, ?_, ?_⟩
  · simp [neuroglancer_shader_parameters, h, window_of, range_of]
  · have hsub : (img.visual_stats none).median - (img.visual_stats none).mad * ms ≤
        (img.visual_stats none).median :=
      sub_le_self _ (mul_nonneg h3 hms)
    have hmax : max ((img.visual_stats none).median - (img.visual_stats none).mad * ms)
        (img.visual_stats none).minv ≤ (img.visual_stats none).median :=
      max_le hsub h1
    exact le_trans (Int.floor_le _) hmax
  · exact Int.floor_le_floor (le_max_right _ _)
  · exact Int.ceil_le_ceil (min_le_right _ _)

theorem grayscale_shader_parameters_witness :
    shader_type img_gray = .ok "Grayscale" ∧
    ((0 : ℚ) ≤ 3) ∧
    (img_gray.visual_stats none).minv ≤ (img_gray.visual_stats none).median ∧
    (img_gray.visual_stats none).median ≤ (img_gray.visual_stats none).maxv ∧
    (0 : ℚ) ≤ (img_gray.visual_stats none).mad ∧
    neuroglancer_shader_parameters img_gray 3 = .ok (.grayscale [4, 16] [0, 100]) := by
  refine ⟨by decide, by norm_num, by decide, by decide, by decide, ?_⟩
  have h := (grayscale_shader_parameters img_gray 3 (by decide) (by norm_num)
    (by decide) (by decide) (by decide)).1
  rw [h]
  norm_num [img_gray]

/-- C8.  For a MultiChannel image whose storage axis 1 is the channel axis
of extent `ext`: if the declared channel-name count differs from `ext` the
builder fails with the assertion error (the specification's
`ConsistencyError`); if the counts agree but `ext` exceeds the 6-color
palette it fails likewise; and when both conditions hold it succeeds, with
one entry per channel where channel `c` is assigned the `c`-th color of
the palette red, green, blue, cyan, yellow, magenta. -/
theorem multichannel_consistency (img : HZImage) (ms : ℚ) (ext : Nat)
    (h : shader_type img = .ok "MultiChannel")
    (hc : (multiscale_dims img).data.get? 1 = some 'C')
    (hext : img.shape.get? 1 = some ext) :
    (img.channel_names.length ≠ ext →
      neuroglancer_shader_parameters img ms = .error .assertionError) ∧
    (img.channel_names.length = ext → color_sequence.length < ext →
      neuroglancer_shader_parameters img ms = .error .assertionError) ∧
    (img.channel_names.length = ext → ext ≤ color_sequence.length →
      neuroglancer_shader_parameters img ms =
        .ok (.multiChannel 0 0 (build_channel_array img ms)) ∧
      (build_channel_array img ms).length = ext ∧
      ∀ i (hi : i < (build_channel_array img ms).length),
        ((build_channel_array img ms).get ⟨i, hi⟩).color = color_sequence.getD i "" ∧
        ((build_channel_array img ms).get ⟨i, hi⟩).channel = i) := by
  have hlen : (build_channel_array img ms).length = img.channel_names.length := by
    simp [build_channel_array]
  have hc' : (multiscale_dims img).data[1]? = some 'C' := by
    rw [← List.get?_eq_getElem?]; exact hc
  have hext' : img.shape[1]? = some ext := by
    rw [← List.get?_eq_getElem?]; exact hext
  refine ⟨?_, ?_, ?_⟩
  · intro hne
    simp [neuroglancer_shader_parameters, h, hc', hext', hne]
  · intro heq hgt
    simp [neuroglancer_shader_parameters, h, hc', hext', heq, Nat.not_le.mpr hgt]
  · intro heq hle
    refine ⟨?_, hlen.trans heq, ?_⟩
    · simp [neuroglancer_shader_parameters, h, hc', hext', heq, hle]
    · intro i hi
      have hi' : i < img.channel_names.enum.length := by
        simpa [build_channel_array] using hi
      constructor
      · show (build_channel_array img ms)[i].color = _
        simp [build_channel_array, List.getElem_map, List.getElem_enum]
      · show (build_channel_array img ms)[i].channel = _
        simp [build_channel_array, List.getElem_map, List.getElem_enum]

theorem multichannel_consistency_witness :
    shader_type img_mc_mismatch = .ok "MultiChannel" ∧
    (multiscale_dims img_mc_mismatch).data.get? 1 = some 'C' ∧
    img_mc_mismatch.shape.get? 1 = some 4 ∧
    img_mc_mismatch.channel_names.length ≠ 4 ∧
    neuroglancer_shader_parameters img_mc_mismatch 3 = .error .assertionError :=
  ⟨by decide, by decide, by decide, by decide,
   (multichannel_consistency img_mc_mismatch 3 4 (by decide) (by decide)
     (by decide)).1 (by decide)⟩

lemma findIdx_eq_none_of_not_mem (l : List String) (item : String)
    (h : item ∉ l) : l.findIdx? (fun k => k == item) = none := by
  rw [List.findIdx?_eq_none_iff]
  intro x hx
  have hne : ¬x = item := fun hh => absurd (hh ▸ hx) h
  simp [hne]

/-- C9 counterexample.  With OME metadata declaring the single series
`"imgA"`, looking up `"0"` — a name that is a real root group but not a
series key — raises `TypeError`, not a `SeriesNotFoundError` (no such
error exists anywhere in the code): the fallback line constructs
`HedwigZarrImage(self.zarr_root[item])` with two required positional
arguments missing. -/
theorem getitem_unknown_name_typeerror :
    getitem cat0 "0" = .error .typeError ∧
    getitem cat0 "0" ≠ .error .keyError :=
  ⟨by decide, by decide⟩

/-- C9 amended.  A name that is not among the series keys always fails —
with `TypeError` from the under-applied fallback constructor when the name
is a root group, and `KeyError` otherwise — never with a dedicated
`SeriesNotFoundError`; a name that is among the series keys returns the
image backed by the root group the stored ordinal-to-group `series` table
maps its (first-match) ordinal to, together with the shared OME info and
that ordinal. -/
theorem getitem_behavior :
    (∀ (cat : Catalog) (item : String), item ∉ get_series_keys cat →
      getitem cat item = .error (if item ∈ cat.root_groups then .typeError else .keyError)) ∧
    (∀ (cat : Catalog) (item : String) (k_idx : Nat) (series : List String)
       (zarr_idx : String),
      (get_series_keys cat).findIdx? (fun k => k == item) = some k_idx →
      cat.ome_series = some series → series.get? k_idx = some zarr_idx →
      zarr_idx ∈ cat.root_groups →
      getitem cat item = .ok ⟨zarr_idx, cat.ome_info, k_idx⟩) := by
  constructor
  · intro cat item hnot
    unfold getitem
    rw [findIdx_eq_none_of_not_mem _ _ hnot]
    by_cases hroot : item ∈ cat.root_groups
    · simp [hroot]
    · simp [hroot]
  · intro cat item k_idx series zarr_idx hfind hser hidx hroot
    unfold getitem
    rw [hfind]
    simp only
    rw [hser]
    simp only
    rw [hidx]
    simp only
    rw [if_pos hroot]

theorem getitem_behavior_witness :
    ("nope" ∉ get_series_keys cat0 ∧
      getitem cat0 "nope" = .error (if "nope" ∈ cat0.root_groups then .typeError else .keyError)) ∧
    ((get_series_keys cat0).findIdx? (fun k => k == "imgA") = some 0 ∧
      getitem cat0 "imgA" = .ok ⟨"0", cat0.ome_info, 0⟩) :=
  ⟨⟨by decide, getitem_behavior.1 cat0 "nope" (by decide)⟩,
   ⟨by decide, getitem_behavior.2 cat0 "imgA" 0 ["0"] "0" (by decide) rfl (by decide) (by decide)⟩⟩

lemma py_upper_data (s : String) : (py_upper s).data = s.data.map Char.toUpper := rfl

lemma foldl_append_data (axes : List Axis) :
    ∀ (init : String),
      (axes.foldl (fun d a => d ++ py_upper a.name) init).data =
        init.data ++ (axes.map (fun a => (py_upper a.name).data)).flatten := by
  induction axes with
  | nil => intro init; simp
  | cons a as ih =>
    intro init
    simp only [List.foldl_cons, List.map_cons, List.flatten_cons]
    rw [ih (init ++ py_upper a.name), String.data_append]
    simp [List.append_assoc]

lemma multiscale_dims_data (img : HZImage) :
    (multiscale_dims img).data =
      (img.axes.map (fun a => (py_upper a.name).data)).flatten := by
  unfold multiscale_dims
  rw [foldl_append_data]
  rfl

lemma string_join_data (l : List String) :
    (String.join l).data = (l.map String.data).flatten := by
  suffices haux : ∀ (init : String),
      (l.foldl (fun r s => r ++ s) init).data = init.data ++ (l.map String.data).flatten by
    exact haux ""
  induction l with
  | nil => intro init; simp
  | cons x xs ih =>
    intro init
    simp only [List.foldl_cons, List.map_cons, List.flatten_cons]
    rw [ih (init ++ x), String.data_append]
    simp [List.append_assoc]

lemma beq_of_single {u v : String} {c d : Char} (hu : u.data = [c]) (hv : v.data = [d]) :
    (u == v) = (c == d) := by
  have hu' : u = ⟨[c]⟩ := String.ext (by rw [hu])
  have hv' : v = ⟨[d]⟩ := String.ext (by rw [hv])
  subst hu'
  subst hv'
  by_cases h : c = d
  · subst h; simp
  · have hne : (⟨[c]⟩ : String) ≠ ⟨[d]⟩ := fun hh => h (by
      have hdd := congrArg String.data hh
      simpa using hdd)
    simp [h, hne]

lemma flatten_of_single {l : List String} (h : ∀ s ∈ l, ∃ c, s.data = [c]) :
    (l.map String.data).flatten = l.map cOf := by
  induction l with
  | nil => rfl
  | cons x xs ih =>
    obtain ⟨c, hc⟩ := h x (List.mem_cons_self x xs)
    simp only [List.map_cons, List.flatten_cons, hc]
    rw [ih (fun s hs => h s (List.mem_cons_of_mem x hs))]
    simp [cOf, hc]

lemma zip_filter_corr :
    ∀ (axes : List Axis) (shape : List Nat),
      (∀ a ∈ axes, a.name.length = 1) →
      ((shape.zip ((axes.map (fun a => (py_upper a.name).data)).flatten)).filter
          (fun p => p.2 == 'X' || p.2 == 'Y' || decide (1 < p.1))).map Prod.snd
        = ((((axes.map (fun a => py_upper a.name)).zip shape).filter
            (fun p => p.1 == "X" || p.1 == "Y" || decide (1 < p.2))).map Prod.fst).map cOf := by
  intro axes
  induction axes with
  | nil => intro shape _; simp
  | cons a as ih =>
    intro shape h
    have ha : a.name.data.length = 1 := h a (List.mem_cons_self a as)
    have hl : (py_upper a.name).data.length = 1 := by
      rw [py_upper_data, List.length_map]; exact ha
    obtain ⟨c, hc⟩ := List.length_eq_one.mp hl
    cases shape with
    | nil => simp
    | cons n ns =>
      simp only [List.map_cons, List.flatten_cons, hc, List.cons_append,
        List.zip_cons_cons, List.filter_cons]
      have hbx : ((py_upper a.name) == "X") = (c == 'X') := beq_of_single hc rfl
      have hby : ((py_upper a.name) == "Y") = (c == 'Y') := beq_of_single hc rfl
      have hrest := ih ns (fun x hx => h x (List.mem_cons_of_mem a hx))
      simp only [hbx, hby]
      have hcof : cOf (py_upper a.name) = c := by simp [cOf, hc]
      cases hp : (c == 'X' || c == 'Y' || decide (1 < n)) with
      | true => simp [hrest, hcof]
      | false => simp [hrest]

/-- C4.  Provided every declared axis label is a single character (as the
OME-NGFF axis names t, c, z, y, x are), the code's `dims` — which zips the
full-resolution shape with the characters of the concatenated upper-cased
labels, keeps a character when it is `X` or `Y` or the paired extent
exceeds 1, and reverses before joining — computes exactly the
specification's per-axis recipe; and every character of `dims` is `X`, `Y`
or an axis whose full-resolution extent exceeds 1, so no non-spatial axis
of extent 1 survives. -/
theorem dims_matches_spec_recipe (img : HZImage)
    (h : ∀ a ∈ img.axes, a.name.length = 1) :
    dims img = dims_fromSpec img ∧
    ∀ c ∈ (dims img).data, ∃ s, (s, c) ∈ img.shape.zip (multiscale_dims img).data ∧
      (c = 'X' ∨ c = 'Y' ∨ 1 < s) := by
  constructor
  · apply String.ext
    show ((((img.shape.zip (multiscale_dims img).data).filter
        (fun p => p.2 == 'X' || p.2 == 'Y' || decide (1 < p.1))).map Prod.snd).reverse)
      = (dims_fromSpec img).data
    unfold dims_fromSpec
    rw [string_join_data]
    have hsingle : ∀ s ∈ (((((img.axes.map (fun a => py_upper a.name)).zip img.shape).filter
        (fun p => p.1 == "X" || p.1 == "Y" || decide (1 < p.2))).map Prod.fst).reverse),
        ∃ c, s.data = [c] := by
      intro s hs
      rw [List.mem_reverse] at hs
      obtain ⟨p, hp, hps⟩ := List.mem_map.mp hs
      obtain ⟨a, ha, hap⟩ := List.mem_map.mp
        (List.mem_of_mem_filter hp |> fun hz => (List.of_mem_zip hz).1)
      have h1 : (py_upper a.name).data.length = 1 := by
        rw [py_upper_data, List.length_map]
        exact h a ha
      obtain ⟨c, hc⟩ := List.length_eq_one.mp h1
      exact ⟨c, by rw [← hps, ← hap, hc]⟩
    rw [flatten_of_single hsingle, List.map_reverse]
    rw [multiscale_dims_data]
    rw [zip_filter_corr img.axes img.shape h]
  · intro c hcmem
    have hmem : c ∈ (((img.shape.zip (multiscale_dims img).data).filter
        (fun p => p.2 == 'X' || p.2 == 'Y' || decide (1 < p.1))).map Prod.snd).reverse := hcmem
    rw [List.mem_reverse] at hmem
    obtain ⟨p, hp, hps⟩ := List.mem_map.mp hmem
    have hz := List.mem_of_mem_filter hp
    have hpred := List.of_mem_filter hp
    refine ⟨p.1, by rw [← hps]; simpa using hz, ?_⟩
    rw [← hps]
    simpa [or_assoc] using hpred

theorem dims_matches_spec_recipe_witness :
    (∀ a ∈ img_yx.axes, a.name.length = 1) ∧
    dims img_yx = dims_fromSpec img_yx ∧ dims img_yx = "XY" :=
  ⟨by decide, (dims_matches_spec_recipe img_yx (by decide)).1, by decide⟩

end PyTools
